import Mathlib

/-!
Shallow embedding of the benchmark-suite comparison core of the perf
command-line tool (the `Benchmarks` collection, its name-grouping engine, the
filename-disambiguation policy and the compare-command validation from
perf/__main__.py), together with the spec-modelled accessors of the external
suite/benchmark storage model that this logic calls.
-/

namespace Perf

/-- A benchmark: an optional name (`none` models Python `None`; the empty
string is a possible degenerate name) and its runs, each run being a list of
integer sample values.  Run contents never matter to the grouping logic under
study; they are kept so that distinct benchmarks are distinguishable values. -/
structure Benchmark where
  name : Option String
  runs : List (List Int)
  deriving DecidableEq

/-- Modelled from the spec: `Benchmark.get_name` returns the benchmark's own
name, possibly absent (Python `None`). -/
def Benchmark.get_name (b : Benchmark) : Option String := b.name

/-- A loaded benchmark suite: its source filename and its ordered benchmarks. -/
structure Suite where
  filename : String
  benchmarks : List Benchmark
  deriving DecidableEq

/-- Index of the last occurrence of a character, as Python `str.rfind`:
`-1` when the character is absent. -/
def rfind (p : List Char) (c : Char) : Int :=
  match p.reverse.findIdx? (fun x => x = c) with
  | some k => ((p.length - 1 - k : Nat) : Int)
  | none => -1

/-- `os.path.basename` on a POSIX path: the part after the last slash. -/
def basenameChars (p : List Char) : List Char :=
  p.foldl (fun acc c => if c = '/' then [] else acc ++ [c]) []

/-- `os.path.basename` lifted to `String`. -/
def basename (s : String) : String := String.mk (basenameChars s.data)

/-- Whether some position `i` with `lo ≤ i < hi` holds a character other than a
dot: the scan inside `posixpath.splitext` that refuses to split a base name made
only of leading dots. -/
def hasNonDot (p : List Char) (lo hi : Nat) : Bool :=
  ((p.drop lo).take (hi - lo)).any (fun c => decide (c ≠ '.'))

/-- `os.path.splitext(p)[0]` on a POSIX path: drops the extension after the
last dot, provided that dot lies after the last slash and the characters
between the slash and the dot are not all dots. -/
def splitextRootChars (p : List Char) : List Char :=
  let sepIndex := rfind p '/'
  let dotIndex := rfind p '.'
  if sepIndex < dotIndex then
    if hasNonDot p (sepIndex + 1).toNat dotIndex.toNat then p.take dotIndex.toNat
    else p
  else p

/-- `os.path.splitext(s)[0]` lifted to `String`. -/
def splitextRoot (s : String) : String := String.mk (splitextRootChars s.data)

/-- `format_filename_func` from perf/__main__.py: the display-label function
for the current suites.  Full filenames when two sources share a basename,
basenames when two distinct basenames collide after removing one extension,
stems otherwise. -/
def format_filename_func (suites : List Suite) : String → String :=
  if ((suites.map Suite.filename).map basename).toFinset.card ≠
      (suites.map Suite.filename).length then
    fun filename => filename
  else if (((suites.map Suite.filename).map basename).toFinset.image splitextRoot).card ≠
      ((suites.map Suite.filename).map basename).toFinset.card then
    fun filename => basename filename
  else
    fun filename => splitextRoot (basename filename)

/-- One step of building a suite's set of benchmark names inside
`Benchmarks._group_by_name_names`: a name is added only when it is present and
non-empty (Python `if name:` truthiness). -/
def name_set_step (result : Finset String) (bench : Benchmark) : Finset String :=
  match bench.get_name with
  | some name => if name = "" then result else insert name result
  | none => result

/-- `suite_to_name_set` from `Benchmarks._group_by_name_names`: the set of
truthy (present and non-empty) benchmark names of one suite. -/
def suite_to_name_set (s : Suite) : Finset String :=
  s.benchmarks.foldl name_set_step ∅

/-- `Benchmarks._group_by_name_names`: the common names, i.e. the intersection
of every suite's truthy-name set, seeded from the first suite.  With zero
suites the Python code fails with IndexError on `self.suites[0]`; that failure
is modelled as `none`. -/
def group_by_name_names : List Suite → Option (Finset String)
  | [] => none
  | s :: rest =>
    some (rest.foldl (fun names suite => names ∩ suite_to_name_set suite)
      (suite_to_name_set s))

/-- Modelled from the spec: `Suite.get_benchmark` returns the benchmark of the
suite matching the name (names are unique within a suite, so the first match is
the benchmark of that name); absent names give nothing. -/
def get_benchmark (s : Suite) (name : String) : Option Benchmark :=
  s.benchmarks.find? (fun b => decide (b.get_name = some name))

/-- The `GroupItem` named tuple `(benchmark, title, filename)` of
perf/__main__.py; the benchmark slot carries the `Suite.get_benchmark` result. -/
structure GroupItem where
  benchmark : Option Benchmark
  title : Option String
  filename : String
  deriving DecidableEq

/-- The `GroupItem2` named tuple `(name, benchmarks, is_last)` of
perf/__main__.py. -/
structure GroupItem2 where
  name : String
  benchmarks : List GroupItem
  is_last : Bool
  deriving DecidableEq

/-- The per-member title policy inside `Benchmarks.group_by_name`: no title
when there is a single common name, the name itself for a single suite, the
suite's display label when several suites are loaded. -/
def group_item_title (show_name show_filename : Bool) (name filename : String) :
    Option String :=
  if show_name then
    if show_filename then some filename else some name
  else none

/-- The inner loop of `Benchmarks.group_by_name`: one `GroupItem` per suite, in
suite load order, for a given common name. -/
def group_members (suites : List Suite) (fmt : String → String)
    (show_name show_filename : Bool) (name : String) : List GroupItem :=
  suites.map (fun suite =>
    { benchmark := get_benchmark suite name
      title := group_item_title show_name show_filename name (fmt suite.filename)
      filename := fmt suite.filename })

/-- The enumerate loop of `Benchmarks.group_by_name`: one `GroupItem2` per
sorted common name, `is_last` exactly on the final index. -/
def group_by_name_go (suites : List Suite) (fmt : String → String)
    (show_name show_filename : Bool) (total : Nat) :
    Nat → List String → List GroupItem2
  | _, [] => []
  | index, name :: rest =>
    { name := name
      benchmarks := group_members suites fmt show_name show_filename name
      is_last := decide (index = total - 1) } ::
      group_by_name_go suites fmt show_name show_filename total (index + 1) rest

/-- `Benchmarks.group_by_name`: the common names sorted ascending, one group
per name; fails (as `_group_by_name_names` does) when no suite is loaded. -/
def group_by_name (suites : List Suite) : Option (List GroupItem2) :=
  (group_by_name_names suites).map (fun nameSet =>
    group_by_name_go suites (format_filename_func suites)
      (decide (1 < (nameSet.sort (· ≤ ·)).length)) (decide (1 < suites.length))
      (nameSet.sort (· ≤ ·)).length 0 (nameSet.sort (· ≤ ·)))

/-- The membership test `bench.get_name() not in names`, negated: a missing
name (`None`) is never in a set of strings. -/
def name_in_names (b : Benchmark) (names : Finset String) : Bool :=
  match b.get_name with
  | some n => decide (n ∈ names)
  | none => false

/-- The per-suite ignored benchmarks of `Benchmarks.group_by_name_ignored`:
those whose name is not among the common names, in suite order. -/
def ignored_of (names : Finset String) (s : Suite) : List Benchmark :=
  s.benchmarks.filter (fun b => !name_in_names b names)

/-- `Benchmarks.group_by_name_ignored`: per suite in load order, the benchmarks
not covered by the common names; suites with none are skipped. -/
def group_by_name_ignored (suites : List Suite) :
    Option (List (Suite × List Benchmark)) :=
  (group_by_name_names suites).map (fun names =>
    (suites.map (fun s => (s, ignored_of names s))).filter
      (fun p => !p.2.isEmpty))

/-- The `DataItem` named tuple
`(suite, filename, benchmark, name, title, is_last)` of perf/__main__.py. -/
structure DataItem where
  suite : Suite
  filename : String
  benchmark : Benchmark
  name : Option String
  title : Option String
  is_last : Bool
  deriving DecidableEq

/-- Python `"%s"` formatting of an optional string: `None` prints as "None". -/
def percent_s : Option String → String
  | some s => s
  | none => "None"

/-- Modelled from the spec: `get_benchmark_name` (an external CLI helper)
returns the benchmark's own name, possibly absent. -/
def get_benchmark_name (b : Benchmark) : Option String := b.get_name

/-- The title computation inside `Benchmarks.__iter__`: nothing unless the
collection holds more than one benchmark, else the name, prefixed with the
suite label and a colon when more than one suite is loaded. -/
def data_item_title (show_name show_filename : Bool) (filename : String)
    (name : Option String) : Option String :=
  if show_name then
    if show_filename then some (filename ++ ":" ++ percent_s name) else name
  else none

/-- `Benchmarks.__len__`: total benchmark count across all suites. -/
def benchmarks_len (suites : List Suite) : Nat :=
  (suites.map (fun s => s.benchmarks.length)).sum

/-- The inner enumerate loop of `Benchmarks.__iter__` over one suite's
benchmarks. -/
def iter_go_bench (show_name show_filename : Bool) (filename : String)
    (last_suite : Bool) (suite : Suite) (nbench : Nat) :
    Nat → List Benchmark → List DataItem
  | _, [] => []
  | bench_index, benchmark :: rest =>
    { suite := suite
      filename := filename
      benchmark := benchmark
      name := get_benchmark_name benchmark
      title := data_item_title show_name show_filename filename
        (get_benchmark_name benchmark)
      is_last := last_suite && decide (bench_index = nbench - 1) } ::
      iter_go_bench show_name show_filename filename last_suite suite nbench
        (bench_index + 1) rest

/-- The outer enumerate loop of `Benchmarks.__iter__` over the suites. -/
def iter_go_suites (show_name show_filename : Bool) (fmt : String → String)
    (nsuites : Nat) : Nat → List Suite → List DataItem
  | _, [] => []
  | suite_index, suite :: rest =>
    iter_go_bench show_name show_filename (fmt suite.filename)
        (decide (suite_index = nsuites - 1)) suite suite.benchmarks.length 0
        suite.benchmarks ++
      iter_go_suites show_name show_filename fmt nsuites (suite_index + 1) rest

/-- `Benchmarks.__iter__` materialised as the list of yielded `DataItem`s. -/
def benchmarks_iter (suites : List Suite) : List DataItem :=
  iter_go_suites (decide (1 < benchmarks_len suites))
    (decide (1 < suites.length)) (format_filename_func suites) suites.length 0
    suites

/-- The retained form of a suite after include-benchmark filtering: only the
benchmarks matching the requested name. -/
def narrow_suite (s : Suite) (name : String) : Suite :=
  { s with benchmarks := s.benchmarks.filter (fun b => decide (b.get_name = some name)) }

/-- Modelled from the spec: `BenchmarkSuite._convert_include_benchmark` retains
only the benchmark matching the name, and fails (KeyError) when the name is
absent from the suite. -/
def convert_include_benchmark (s : Suite) (name : String) : Option Suite :=
  if (s.benchmarks.filter (fun b => decide (b.get_name = some name))).isEmpty then none
  else some (narrow_suite s name)

/-- Result of `Benchmarks.include_benchmark`: either the narrowed collection,
or the fatal exit, carrying the offending suite's filename (the one
`fatal_missing_benchmark` prints) and the state of the collection at exit. -/
inductive IncludeResult where
  | ok : List Suite → IncludeResult
  | fatal : String → List Suite → IncludeResult
  deriving DecidableEq

/-- The loop of `Benchmarks.include_benchmark`: suites already processed are
accumulated narrowed; at the first suite lacking the name the command dies via
`fatal_missing_benchmark`, leaving the collection with the prefix narrowed and
the rest untouched. -/
def include_benchmark_go (name : String) (done : List Suite) :
    List Suite → IncludeResult
  | [] => IncludeResult.ok done
  | s :: rest =>
    match convert_include_benchmark s name with
    | some s2 => include_benchmark_go name (done ++ [s2]) rest
    | none => IncludeResult.fatal s.filename (done ++ s :: rest)

/-- `Benchmarks.include_benchmark`: narrows every suite in load order, failing
fatally on the first suite lacking the name. -/
def include_benchmark (suites : List Suite) (name : String) : IncludeResult :=
  include_benchmark_go name [] suites

/-- The observable outcomes of `cmd_compare`'s validation. -/
inductive CompareOutcome where
  | fatalInsufficientSuites : CompareOutcome
  | fatalUnsupportedConfig : CompareOutcome
  | invoked : Bool → Bool → CompareOutcome
  deriving DecidableEq

/-- The validation logic of `cmd_compare` from perf/__main__.py: fewer than two
suites aborts; speed grouping (only available to compare_to) with a suite count
other than two aborts; otherwise `compare_suites` runs with the ranked flag and
the speed flag. -/
def cmd_compare (suites : List Suite) (action_compare_to : Bool)
    (group_by_speed : Bool) : CompareOutcome :=
  if suites.length < 2 then CompareOutcome.fatalInsufficientSuites
  else if (if action_compare_to then group_by_speed else false) = true ∧
      suites.length ≠ 2 then
    CompareOutcome.fatalUnsupportedConfig
  else
    CompareOutcome.invoked (!action_compare_to)
      (if action_compare_to then group_by_speed else false)

/-- A named benchmark used by concrete witnesses. -/
def benchX : Benchmark := { name := some "x", runs := [[1]] }

/-- A second named benchmark used by concrete witnesses. -/
def benchY : Benchmark := { name := some "y", runs := [[2]] }

/-- An anonymous benchmark used by concrete witnesses. -/
def benchAnon : Benchmark := { name := none, runs := [[3]] }

/-- A suite with two named benchmarks. -/
def suiteA : Suite := { filename := "a.json", benchmarks := [benchX, benchY] }

/-- A suite holding only the benchmark named x. -/
def suiteB : Suite := { filename := "b.json", benchmarks := [benchX] }

/-- A third suite, for the compare-command witness. -/
def suiteC : Suite := { filename := "c.json", benchmarks := [benchX] }

/-- A single-benchmark suite from source a.json. -/
def suiteA1 : Suite := { filename := "a.json", benchmarks := [benchX] }

/-- A single-benchmark suite from source b.json. -/
def suiteB1 : Suite := { filename := "b.json", benchmarks := [benchX] }

/-- A concrete two-suite collection sharing the names x and y. -/
def c2suites : List Suite :=
  [{ filename := "a.json", benchmarks := [benchX, benchY] },
   { filename := "b.json", benchmarks := [benchX, benchY] }]

/-- The groups `group_by_name` computes for `c2suites`. -/
def c2gs : List GroupItem2 :=
  [{ name := "x"
     benchmarks := [{ benchmark := some benchX, title := some "a", filename := "a" },
                    { benchmark := some benchX, title := some "b", filename := "b" }]
     is_last := false },
   { name := "y"
     benchmarks := [{ benchmark := some benchY, title := some "a", filename := "a" },
                    { benchmark := some benchY, title := some "b", filename := "b" }]
     is_last := true }]

/-- The first group of `c2gs`. -/
def c7g : GroupItem2 :=
  { name := "x"
    benchmarks := [{ benchmark := some benchX, title := some "a", filename := "a" },
                   { benchmark := some benchX, title := some "b", filename := "b" }]
    is_last := false }

/-- The first member of the first group of `c2gs`. -/
def c7gi : GroupItem := { benchmark := some benchX, title := some "a", filename := "a" }

/-- A suite holding an anonymous benchmark besides the named one. -/
def c10sA : Suite := { filename := "a.json", benchmarks := [benchAnon, benchX] }

/-- A second suite holding an anonymous benchmark besides the named one. -/
def c10sB : Suite := { filename := "b.json", benchmarks := [benchAnon, benchX] }

/-- A collection where every suite holds an anonymous benchmark. -/
def c10suites : List Suite := [c10sA, c10sB]

/-- The ignored-benchmark listing of the collection `[suiteA, suiteB]`. -/
def c3igs : List (Suite × List Benchmark) := [(suiteA, [benchY])]

/-- A collection holding an empty suite next to a singleton suite. -/
def c5cexSuites : List Suite :=
  [{ filename := "a.json", benchmarks := [] },
   { filename := "b.json", benchmarks := [benchX] }]

/-- The first item yielded when iterating `[suiteA1, suiteB1]`. -/
def c5d : DataItem :=
  { suite := suiteA1, filename := "a", benchmark := benchX, name := some "x",
    title := some "a:x", is_last := false }

/-- The narrowed form of `suiteA` after keeping only the benchmark named y. -/
def c6mutA : Suite := { filename := "a.json", benchmarks := [benchY] }

/-- Membership in the name-set fold: a name was either already collected, or
belongs to some benchmark of the traversed list and is non-empty. -/
theorem mem_name_set_foldl (l : List Benchmark) (acc : Finset String) (x : String) :
    x ∈ l.foldl name_set_step acc ↔
      x ∈ acc ∨ ∃ b, b ∈ l ∧ b.get_name = some x ∧ x ≠ "" := by
  induction l generalizing acc with
  | nil => simp
  | cons b t ih =>
    rw [List.foldl_cons, ih]
    have hstep : x ∈ name_set_step acc b ↔ x ∈ acc ∨ (b.get_name = some x ∧ x ≠ "") := by
      cases hb : b.get_name with
      | none => simp [name_set_step, hb]
      | some n =>
        by_cases hn : n = ""
        · subst hn
          simp only [name_set_step, hb, if_pos rfl, Option.some.injEq]
          constructor
          · exact Or.inl
          · rintro (h | ⟨rfl, hx⟩)
            · exact h
            · exact absurd rfl hx
        · simp only [name_set_step, hb, if_neg hn, Finset.mem_insert, Option.some.injEq]
          constructor
          · rintro (rfl | h)
            · exact Or.inr ⟨rfl, hn⟩
            · exact Or.inl h
          · rintro (h | ⟨rfl, hx⟩)
            · exact Or.inr h
            · exact Or.inl rfl
    rw [hstep]
    constructor
    · rintro ((h | h) | ⟨b2, hb2, h⟩)
      · exact Or.inl h
      · exact Or.inr ⟨b, List.mem_cons_self b t, h⟩
      · exact Or.inr ⟨b2, List.mem_cons_of_mem b hb2, h⟩
    · rintro (h | ⟨b2, hb2, h⟩)
      · exact Or.inl (Or.inl h)
      · rcases List.mem_cons.mp hb2 with rfl | hb2
        · exact Or.inl (Or.inr h)
        · exact Or.inr ⟨b2, hb2, h⟩

/-- A suite's name set holds exactly its non-empty benchmark names. -/
theorem mem_suite_to_name_set (s : Suite) (x : String) :
    x ∈ suite_to_name_set s ↔ ∃ b, b ∈ s.benchmarks ∧ b.get_name = some x ∧ x ≠ "" := by
  unfold suite_to_name_set
  rw [mem_name_set_foldl]
  simp

/-- Membership in the running intersection of name sets. -/
theorem mem_foldl_inter (l : List Suite) (init : Finset String) (x : String) :
    x ∈ l.foldl (fun names suite => names ∩ suite_to_name_set suite) init ↔
      x ∈ init ∧ ∀ s, s ∈ l → x ∈ suite_to_name_set s := by
  induction l generalizing init with
  | nil => simp
  | cons s t ih =>
    rw [List.foldl_cons, ih]
    simp only [Finset.mem_inter, List.mem_cons]
    constructor
    · rintro ⟨⟨h1, h2⟩, h3⟩
      refine ⟨h1, fun u hu => ?_⟩
      rcases hu with rfl | hu
      · exact h2
      · exact h3 u hu
    · rintro ⟨h1, h2⟩
      exact ⟨⟨h1, h2 s (Or.inl rfl)⟩, fun u hu => h2 u (Or.inr hu)⟩

/-- The common-name set holds exactly the names present (and truthy) in every
loaded suite. -/
theorem mem_common_names (suites : List Suite) (names : Finset String)
    (h : group_by_name_names suites = some names) (x : String) :
    x ∈ names ↔ ∀ s, s ∈ suites → x ∈ suite_to_name_set s := by
  match suites with
  | [] => simp [group_by_name_names] at h
  | s0 :: rest =>
    simp only [group_by_name_names, Option.some.injEq] at h
    subst h
    rw [mem_foldl_inter]
    simp only [List.mem_cons]
    constructor
    · rintro ⟨h1, h2⟩ u hu
      rcases hu with rfl | hu
      · exact h1
      · exact h2 u hu
    · intro h2
      exact ⟨h2 s0 (Or.inl rfl), fun u hu => h2 u (Or.inr hu)⟩

/-- C1: for every loaded collection (at least one suite, witnessed by
`_group_by_name_names` returning a set), the common-name set equals the set
intersection of each suite's set of non-empty benchmark names, and the result
is invariant under any reordering of the suites. -/
theorem spec_c1_commonNames_inter_symm (suites suites' : List Suite)
    (names : Finset String) (h : group_by_name_names suites = some names)
    (hperm : List.Perm suites suites') (x : String) :
    (x ∈ names ↔ ∀ s, s ∈ suites →
      ∃ b, b ∈ s.benchmarks ∧ b.get_name = some x ∧ x ≠ "") ∧
    group_by_name_names suites = group_by_name_names suites' := by
  constructor
  · rw [mem_common_names suites names h x]
    constructor
    · intro hh s hs
      exact (mem_suite_to_name_set s x).mp (hh s hs)
    · intro hh s hs
      exact (mem_suite_to_name_set s x).mpr (hh s hs)
  · have hne2 : suites' ≠ [] := by
      intro e
      rw [e] at hperm
      rw [hperm.eq_nil] at h
      simp [group_by_name_names] at h
    obtain ⟨names', h2⟩ : ∃ n, group_by_name_names suites' = some n := by
      cases suites' with
      | nil => exact absurd rfl hne2
      | cons a t => exact ⟨_, rfl⟩
    rw [h, h2, Option.some.injEq]
    apply Finset.ext
    intro y
    rw [mem_common_names suites names h y, mem_common_names suites' names' h2 y]
    constructor
    · intro hh s hs
      exact hh s (hperm.mem_iff.mpr hs)
    · intro hh s hs
      exact hh s (hperm.mem_iff.mp hs)

/-- C1 witness: two concrete suites and their reversal share the common-name
set. -/
theorem spec_c1_witness :
    group_by_name_names [suiteA, suiteB] = group_by_name_names [suiteB, suiteA] :=
  (spec_c1_commonNames_inter_symm [suiteA, suiteB] [suiteB, suiteA] {"x"}
    (by decide) (by decide) "x").2

/-- C9 counterexample: with zero loaded suites `_group_by_name_names` does not
return the empty set; the Python code fails with IndexError on `suites[0]`,
modelled as `none`. -/
theorem spec_c9_counterexample :
    group_by_name_names ([] : List Suite) ≠ some (∅ : Finset String) := by
  decide

/-- C9 amended: with zero loaded suites `_group_by_name_names` fails
(IndexError on `suites[0]`), modelled as returning nothing, rather than
returning the empty set. -/
theorem spec_c9_amended : group_by_name_names ([] : List Suite) = none := rfl

/-- Mapping a list without shrinking its toFinset cardinality below the list
length forces the map to be injective on the list's members. -/
theorem inj_on_of_card_map_eq (f : String → String) (l : List String)
    (h : (l.map f).toFinset.card = l.length) :
    ∀ a, a ∈ l → ∀ b, b ∈ l → f a = f b → a = b := by
  have hlen : (l.map f).length = l.length := by simp
  have hd : (l.map f).dedup.length = (l.map f).length := by
    rw [← List.card_toFinset, h, hlen]
  have hnd : (l.map f).Nodup := by
    have he := List.Sublist.eq_of_length (List.dedup_sublist (l.map f)) hd
    rw [← he]
    exact List.nodup_dedup (l.map f)
  intro a ha b hb hf
  exact List.inj_on_of_nodup_map hnd ha hb hf

/-- C4: the display-label function returned by `format_filename_func` is
injective over distinct loaded source filenames, in every branch of the
three-tier policy (full paths, basenames, stems). -/
theorem spec_c4_format_filename_injective (suites : List Suite) (f1 f2 : String)
    (h1 : f1 ∈ suites.map Suite.filename) (h2 : f2 ∈ suites.map Suite.filename)
    (hne : f1 ≠ f2) :
    format_filename_func suites f1 ≠ format_filename_func suites f2 := by
  unfold format_filename_func
  split_ifs with hb hx
  · exact hne
  · push_neg at hb
    intro he
    exact hne (inj_on_of_card_map_eq basename (suites.map Suite.filename) hb
      f1 h1 f2 h2 he)
  · push_neg at hb hx
    intro he
    have hinj2 : Set.InjOn splitextRoot
        (((suites.map Suite.filename).map basename).toFinset : Set String) :=
      Finset.card_image_iff.mp hx
    have hbase : basename f1 = basename f2 := by
      apply hinj2
      · exact Finset.mem_coe.mpr (List.mem_toFinset.mpr (List.mem_map_of_mem basename h1))
      · exact Finset.mem_coe.mpr (List.mem_toFinset.mpr (List.mem_map_of_mem basename h2))
      · exact he
    exact hne (inj_on_of_card_map_eq basename (suites.map Suite.filename) hb
      f1 h1 f2 h2 hbase)

/-- C4 witness: two concrete distinct sources get distinct labels. -/
theorem spec_c4_witness :
    format_filename_func [suiteA1, suiteB1] "a.json" ≠
      format_filename_func [suiteA1, suiteB1] "b.json" :=
  spec_c4_format_filename_injective [suiteA1, suiteB1] "a.json" "b.json"
    (by decide) (by decide) (by decide)

/-- The enumerate loop of `group_by_name` yields one group per name. -/
theorem group_by_name_go_length (suites : List Suite) (fmt : String → String)
    (sn sf : Bool) (total : Nat) (idx : Nat) (names : List String) :
    (group_by_name_go suites fmt sn sf total idx names).length = names.length := by
  induction names generalizing idx with
  | nil => rfl
  | cons n t ih => simp [group_by_name_go, ih]

/-- Shape of the group at position `i` of the enumerate loop. -/
theorem group_by_name_go_get (suites : List Suite) (fmt : String → String)
    (sn sf : Bool) (total : Nat) (idx : Nat) (names : List String)
    (i : Nat) (h : i < names.length)
    (h2 : i < (group_by_name_go suites fmt sn sf total idx names).length) :
    (group_by_name_go suites fmt sn sf total idx names).get ⟨i, h2⟩ =
      { name := names.get ⟨i, h⟩
        benchmarks := group_members suites fmt sn sf (names.get ⟨i, h⟩)
        is_last := decide (idx + i = total - 1) } := by
  induction names generalizing idx i with
  | nil => simp at h
  | cons n t ih =>
    cases i with
    | zero => simp [group_by_name_go]
    | succ j =>
      have hj : j < t.length := by simpa using h
      have hj2 : j < (group_by_name_go suites fmt sn sf total (idx + 1) t).length := by
        rw [group_by_name_go_length]
        exact hj
      have harith : idx + 1 + j = idx + (j + 1) := by omega
      simp only [group_by_name_go, List.get_cons_succ]
      rw [ih (idx + 1) j hj hj2, harith]

/-- The names of the groups of the enumerate loop, in order. -/
theorem group_by_name_go_map_name (suites : List Suite) (fmt : String → String)
    (sn sf : Bool) (total : Nat) (idx : Nat) (names : List String) :
    (group_by_name_go suites fmt sn sf total idx names).map GroupItem2.name = names := by
  induction names generalizing idx with
  | nil => rfl
  | cons n t ih => simp [group_by_name_go, ih]

/-- Every group of the enumerate loop is built from its own name. -/
theorem mem_group_by_name_go (suites : List Suite) (fmt : String → String)
    (sn sf : Bool) (total : Nat) (idx : Nat) (names : List String)
    (g : GroupItem2) (hg : g ∈ group_by_name_go suites fmt sn sf total idx names) :
    g.name ∈ names ∧ g.benchmarks = group_members suites fmt sn sf g.name := by
  induction names generalizing idx with
  | nil => simp [group_by_name_go] at hg
  | cons n t ih =>
    simp only [group_by_name_go] at hg
    rcases List.mem_cons.mp hg with rfl | hg2
    · exact ⟨List.mem_cons_self n t, rfl⟩
    · obtain ⟨hn, hb⟩ := ih (idx + 1) hg2
      exact ⟨List.mem_cons_of_mem n hn, hb⟩

/-- `group_by_name` is the enumerate loop over the sorted common names. -/
theorem group_by_name_eq (suites : List Suite) (names : Finset String)
    (gs : List GroupItem2) (h1 : group_by_name_names suites = some names)
    (h2 : group_by_name suites = some gs) :
    gs = group_by_name_go suites (format_filename_func suites)
      (decide (1 < (names.sort (· ≤ ·)).length)) (decide (1 < suites.length))
      (names.sort (· ≤ ·)).length 0 (names.sort (· ≤ ·)) := by
  unfold group_by_name at h2
  rw [h1, Option.map_some'] at h2
  exact (Option.some_inj.mp h2).symm

/-- A common name is found in every suite by `get_benchmark`. -/
theorem get_benchmark_isSome (suites : List Suite) (names : Finset String)
    (h1 : group_by_name_names suites = some names) (n : String) (hn : n ∈ names)
    (s : Suite) (hs : s ∈ suites) : (get_benchmark s n).isSome = true := by
  have hset := (mem_common_names suites names h1 n).mp hn s hs
  obtain ⟨b, hb, hbn, _⟩ := (mem_suite_to_name_set s n).mp hset
  unfold get_benchmark
  rw [List.find?_isSome]
  exact ⟨b, hb, by simp [hbn]⟩

/-- C2: `group_by_name` yields exactly one group per common name, groups in
ascending (strictly sorted) name order covering exactly the common names, each
group holding one member per suite in load order (the suite's benchmark of that
name, which exists), and `is_last` true exactly on the group whose name is the
greatest common name. -/
theorem spec_c2_group_by_name (suites : List Suite) (names : Finset String)
    (gs : List GroupItem2) (h1 : group_by_name_names suites = some names)
    (h2 : group_by_name suites = some gs) :
    gs.map GroupItem2.name = names.sort (· ≤ ·) ∧
    List.Sorted (· < ·) (gs.map GroupItem2.name) ∧
    (∀ n, n ∈ gs.map GroupItem2.name ↔ n ∈ names) ∧
    ∀ g, g ∈ gs →
      g.benchmarks.length = suites.length ∧
      (∀ i, ∀ hi : i < suites.length, ∀ hi2 : i < g.benchmarks.length,
        (g.benchmarks.get ⟨i, hi2⟩).benchmark =
          get_benchmark (suites.get ⟨i, hi⟩) g.name ∧
        ((g.benchmarks.get ⟨i, hi2⟩).benchmark).isSome = true) ∧
      (g.is_last = true ↔ ∀ n, n ∈ names → n ≤ g.name) := by
  have hgs := group_by_name_eq suites names gs h1 h2
  have hmap : gs.map GroupItem2.name = names.sort (· ≤ ·) := by
    rw [hgs]
    exact group_by_name_go_map_name ..
  refine ⟨hmap, by rw [hmap]; exact Finset.sort_sorted_lt names,
    fun n => by rw [hmap]; exact Finset.mem_sort (· ≤ ·), fun g hg => ?_⟩
  have hmem := mem_group_by_name_go _ _ _ _ _ _ _ g (hgs ▸ hg)
  have hgname : g.name ∈ names := (Finset.mem_sort (· ≤ ·)).mp hmem.1
  refine ⟨by rw [hmem.2]; simp [group_members], fun i hi hi2 => ?_, ?_⟩
  · have hi2m : i < (suites.map (fun suite =>
        ({ benchmark := get_benchmark suite g.name
           title := group_item_title (decide (1 < (names.sort (· ≤ ·)).length))
             (decide (1 < suites.length)) g.name
             (format_filename_func suites suite.filename)
           filename := format_filename_func suites suite.filename } : GroupItem))).length := by
      simpa using hi
    have hben : (g.benchmarks.get ⟨i, hi2⟩).benchmark =
        get_benchmark (suites.get ⟨i, hi⟩) g.name := by
      have := hmem.2
      revert hi2
      rw [this]
      intro hi2
      rw [show (group_members suites (format_filename_func suites)
          (decide (1 < (names.sort (· ≤ ·)).length)) (decide (1 < suites.length))
          g.name).get ⟨i, hi2⟩ =
        _ from List.get_map ..]
    refine ⟨hben, ?_⟩
    rw [hben]
    exact get_benchmark_isSome suites names h1 g.name hgname (suites.get ⟨i, hi⟩)
      (List.get_mem suites i hi)
  · obtain ⟨⟨i, hil⟩, hgi⟩ := List.mem_iff_get.mp (hgs ▸ hg)
    have hil2 : i < (names.sort (· ≤ ·)).length := by
      have := group_by_name_go_length suites (format_filename_func suites)
        (decide (1 < (names.sort (· ≤ ·)).length)) (decide (1 < suites.length))
        (names.sort (· ≤ ·)).length 0 (names.sort (· ≤ ·))
      omega
    rw [group_by_name_go_get _ _ _ _ _ _ _ i hil2 hil] at hgi
    have hname : g.name = (names.sort (· ≤ ·)).get ⟨i, hil2⟩ := by rw [← hgi]
    have hlast : g.is_last = decide (0 + i = (names.sort (· ≤ ·)).length - 1) := by
      rw [← hgi]
    rw [hlast]
    simp only [Nat.zero_add, decide_eq_true_eq]
    constructor
    · intro hieq n hn
      obtain ⟨⟨j, hjl⟩, hjn⟩ := List.mem_iff_get.mp ((Finset.mem_sort (· ≤ ·)).mpr hn)
      rcases Nat.lt_or_ge j i with hji | hji
      · have := (Finset.sort_sorted_lt names).rel_get_of_lt
          (show (⟨j, hjl⟩ : Fin (names.sort (· ≤ ·)).length) < ⟨i, hil2⟩ from hji)
        rw [hjn, ← hname] at this
        exact le_of_lt this
      · have hje : j = i := by omega
        subst hje
        rw [hname, ← hjn]
    · intro hall
      by_contra hne
      have hilt : i < (names.sort (· ≤ ·)).length - 1 := by omega
      have hll : (names.sort (· ≤ ·)).length - 1 < (names.sort (· ≤ ·)).length := by
        omega
      set m := (names.sort (· ≤ ·)).get ⟨(names.sort (· ≤ ·)).length - 1, hll⟩ with hm
      have hmmem : m ∈ names := (Finset.mem_sort (· ≤ ·)).mp (List.get_mem ..)
      have hlt : g.name < m := by
        rw [hname, hm]
        exact (Finset.sort_sorted_lt names).rel_get_of_lt
          (show (⟨i, hil2⟩ : Fin (names.sort (· ≤ ·)).length) <
            ⟨(names.sort (· ≤ ·)).length - 1, hll⟩ from hilt)
      exact absurd (hall m hmmem) (not_le.mpr hlt)

/-- The sorted form of the two-element name set of the concrete collection. -/
theorem sort_yx_eval :
    ({"y", "x"} : Finset String).sort (· ≤ ·) = ["x", "y"] := by
  have h : ({"y", "x"} : Finset String) = {"x", "y"} := by decide
  rw [h]
  rw [Finset.sort_insert]
  · rw [Finset.sort_singleton]
  · intro b hb
    rcases Finset.mem_singleton.mp hb with rfl
    rw [String.le_iff_toList_le]
    decide
  · decide

/-- The groups the concrete two-suite collection computes. -/
theorem group_by_name_c2suites_eval : group_by_name c2suites = some c2gs := by
  have h1 : group_by_name_names c2suites = some {"y", "x"} := rfl
  unfold group_by_name
  rw [h1, Option.map_some', sort_yx_eval]
  rfl

/-- C2 witness: the concrete two-suite collection gets one group per sorted
common name. -/
theorem spec_c2_witness :
    c2gs.map GroupItem2.name = ({"y", "x"} : Finset String).sort (· ≤ ·) :=
  (spec_c2_group_by_name c2suites {"y", "x"} c2gs (by rfl)
    group_by_name_c2suites_eval).1

/-- C7: inside `group_by_name`, a member's title is nothing when a single
common name exists; with several common names it is the group's name when one
suite is loaded, and the suite's display label when several are. -/
theorem spec_c7_group_item_titles (suites : List Suite) (names : Finset String)
    (gs : List GroupItem2) (h1 : group_by_name_names suites = some names)
    (h2 : group_by_name suites = some gs) (g : GroupItem2) (hg : g ∈ gs)
    (gi : GroupItem) (hgi : gi ∈ g.benchmarks) :
    (names.card = 1 → gi.title = none) ∧
    (1 < names.card → suites.length = 1 → gi.title = some g.name) ∧
    (1 < names.card → 1 < suites.length → gi.title = some gi.filename) := by
  have hgs := group_by_name_eq suites names gs h1 h2
  have hmem := mem_group_by_name_go _ _ _ _ _ _ _ g (hgs ▸ hg)
  rw [hmem.2] at hgi
  unfold group_members at hgi
  obtain ⟨s, hs, rfl⟩ := List.mem_map.mp hgi
  have hcard : (names.sort (· ≤ ·)).length = names.card := Finset.length_sort (· ≤ ·)
  refine ⟨?_, ?_, ?_⟩
  · intro hone
    show group_item_title (decide (1 < (names.sort (· ≤ ·)).length))
      (decide (1 < suites.length)) g.name (format_filename_func suites s.filename) = none
    have hsn : decide (1 < (names.sort (· ≤ ·)).length) = false := by
      rw [hcard, hone]
      decide
    rw [hsn]
    rfl
  · intro hmore hone
    show group_item_title (decide (1 < (names.sort (· ≤ ·)).length))
      (decide (1 < suites.length)) g.name (format_filename_func suites s.filename) =
      some g.name
    have hsn : decide (1 < (names.sort (· ≤ ·)).length) = true := by
      rw [hcard]
      exact decide_eq_true hmore
    have hsf : decide (1 < suites.length) = false := by
      rw [hone]
      decide
    rw [hsn, hsf]
    rfl
  · intro hmore hmany
    show group_item_title (decide (1 < (names.sort (· ≤ ·)).length))
      (decide (1 < suites.length)) g.name (format_filename_func suites s.filename) =
      some (format_filename_func suites s.filename)
    have hsn : decide (1 < (names.sort (· ≤ ·)).length) = true := by
      rw [hcard]
      exact decide_eq_true hmore
    have hsf : decide (1 < suites.length) = true := decide_eq_true hmany
    rw [hsn, hsf]
    rfl

/-- C7 witness: at the concrete two-suite collection with two common names the
member's title is its suite's label. -/
theorem spec_c7_witness :
    ((({"y", "x"} : Finset String)).card = 1 → c7gi.title = none) ∧
    (1 < (({"y", "x"} : Finset String)).card → c2suites.length = 1 →
      c7gi.title = some c7g.name) ∧
    (1 < (({"y", "x"} : Finset String)).card → 1 < c2suites.length →
      c7gi.title = some c7gi.filename) :=
  spec_c7_group_item_titles c2suites {"y", "x"} c2gs (by rfl)
    group_by_name_c2suites_eval c7g (by decide) c7gi (by decide)

/-- C10: a benchmark bearing no name or the empty name never contributes a
common name, never appears inside any group, and is always listed among its
suite's ignored benchmarks. -/
theorem spec_c10_anonymous_benchmarks (suites : List Suite) (names : Finset String)
    (s : Suite) (b : Benchmark) (h1 : group_by_name_names suites = some names)
    (hs : s ∈ suites) (hb : b ∈ s.benchmarks)
    (hname : b.get_name = none ∨ b.get_name = some "") :
    (∀ n, n ∈ names → n ≠ "") ∧
    (∀ gs, group_by_name suites = some gs →
      ∀ g, g ∈ gs → ∀ gi, gi ∈ g.benchmarks → gi.benchmark ≠ some b) ∧
    (((s, ignored_of names s) ∈ (group_by_name_ignored suites).getD []) ∧
      b ∈ ignored_of names s) := by
  have hnonempty : ∀ n, n ∈ names → n ≠ "" := by
    intro n hn
    have hset := (mem_common_names suites names h1 n).mp hn s hs
    obtain ⟨b2, _, _, hne⟩ := (mem_suite_to_name_set s n).mp hset
    exact hne
  have hbign : b ∈ ignored_of names s := by
    unfold ignored_of
    rw [List.mem_filter]
    refine ⟨hb, ?_⟩
    rcases hname with hn | hn
    · simp [name_in_names, hn]
    · have : ("" : String) ∉ names := fun hc => hnonempty "" hc rfl
      simp [name_in_names, hn, this]
  refine ⟨hnonempty, ?_, ?_, hbign⟩
  · intro gs h2 g hg gi hgi heq
    have hgs := group_by_name_eq suites names gs h1 h2
    have hmem := mem_group_by_name_go _ _ _ _ _ _ _ g (hgs ▸ hg)
    rw [hmem.2] at hgi
    unfold group_members at hgi
    obtain ⟨u, hu, rfl⟩ := List.mem_map.mp hgi
    have hfound : b.get_name = some g.name := by
      have := List.find?_some heq
      simpa using this
    have hgname : g.name ∈ names := (Finset.mem_sort (· ≤ ·)).mp hmem.1
    rcases hname with hn | hn
    · rw [hn] at hfound
      exact Option.noConfusion hfound
    · rw [hn] at hfound
      have : g.name = "" := (Option.some_inj.mp hfound).symm
      exact hnonempty g.name hgname this
  · have hign : group_by_name_ignored suites =
        some ((suites.map (fun u => (u, ignored_of names u))).filter
          (fun p => !p.2.isEmpty)) := by
      unfold group_by_name_ignored
      rw [h1, Option.map_some']
    rw [hign, Option.getD_some, List.mem_filter]
    constructor
    · exact List.mem_map_of_mem (fun u => (u, ignored_of names u)) hs
    · have hne : ignored_of names s ≠ [] := List.ne_nil_of_mem hbign
      simp only [Bool.not_eq_true']
      cases hi : ignored_of names s with
      | nil => exact absurd hi hne
      | cons a t => rfl

/-- C10 witness: the anonymous benchmark of a concrete collection (where every
suite holds one) is ignored, and its suite is listed. -/
theorem spec_c10_witness :
    ((c10sA, ignored_of {"x"} c10sA) ∈ (group_by_name_ignored c10suites).getD []) ∧
    benchAnon ∈ ignored_of {"x"} c10sA :=
  (spec_c10_anonymous_benchmarks c10suites {"x"} c10sA benchAnon (by rfl)
    (by decide) (by decide) (Or.inl rfl)).2.2

/-- C3: `group_by_name_ignored` lists, per suite in load order and skipping
suites with nothing ignored, exactly the benchmarks whose name is not a common
name; per suite the ignored benchmarks are a sublist of the suite, and together
with the benchmarks whose names are common they form exactly the suite's full
benchmark list (a permutation: no duplicates, no omissions), the two parts
disjoint. -/
theorem spec_c3_group_by_name_ignored (suites : List Suite) (names : Finset String)
    (igs : List (Suite × List Benchmark))
    (h1 : group_by_name_names suites = some names)
    (h2 : group_by_name_ignored suites = some igs) :
    igs = (suites.filter (fun s => !(ignored_of names s).isEmpty)).map
      (fun s => (s, ignored_of names s)) ∧
    ∀ s, s ∈ suites →
      (ignored_of names s).Sublist s.benchmarks ∧
      (ignored_of names s ++
        s.benchmarks.filter (fun b => name_in_names b names)).Perm s.benchmarks ∧
      ∀ b, b ∈ s.benchmarks →
        (b ∈ ignored_of names s ↔
          b ∉ s.benchmarks.filter (fun b2 => name_in_names b2 names)) := by
  constructor
  · unfold group_by_name_ignored at h2
    rw [h1, Option.map_some'] at h2
    have h3 : igs = ((suites.map (fun s => (s, ignored_of names s))).filter
        (fun p => !p.2.isEmpty)) := (Option.some_inj.mp h2).symm
    rw [h3, List.filter_map]
    rfl
  · intro s _
    refine ⟨List.filter_sublist s.benchmarks, ?_, ?_⟩
    · have hp := List.filter_append_perm (fun b => !name_in_names b names) s.benchmarks
      have hq : (s.benchmarks.filter (fun x => !!name_in_names x names)) =
          s.benchmarks.filter (fun x => name_in_names x names) := by
        simp [Bool.not_not]
      rw [hq] at hp
      exact hp
    · intro b hb
      unfold ignored_of
      rw [List.mem_filter, List.mem_filter]
      constructor
      · rintro ⟨_, hni⟩ ⟨_, hyes⟩
        rw [hyes] at hni
        simp at hni
      · intro hnot
        refine ⟨hb, ?_⟩
        by_cases hq : name_in_names b names
        · exact absurd ⟨hb, hq⟩ hnot
        · simp [hq]

/-- C3 witness: the concrete collection lists exactly one suite with its
ignored benchmark. -/
theorem spec_c3_witness :
    c3igs = ([suiteA, suiteB].filter (fun s => !(ignored_of {"x"} s).isEmpty)).map
      (fun s => (s, ignored_of {"x"} s)) :=
  (spec_c3_group_by_name_ignored [suiteA, suiteB] {"x"} c3igs (by rfl) (by rfl)).1

/-- Every item of the inner iteration loop carries a benchmark of the suite and
the loop's title formula. -/
theorem mem_iter_go_bench (sn sf : Bool) (fn : String) (ls : Bool) (su : Suite)
    (nb : Nat) (l : List Benchmark) (i : Nat) (d : DataItem)
    (hd : d ∈ iter_go_bench sn sf fn ls su nb i l) :
    ∃ b, b ∈ l ∧ d.name = b.get_name ∧ d.filename = fn ∧
      d.title = data_item_title sn sf fn b.get_name := by
  induction l generalizing i with
  | nil => simp [iter_go_bench] at hd
  | cons b t ih =>
    simp only [iter_go_bench] at hd
    rcases List.mem_cons.mp hd with rfl | hd2
    · exact ⟨b, List.mem_cons_self b t, rfl, rfl, rfl⟩
    · obtain ⟨b2, hb2, h⟩ := ih (i + 1) hd2
      exact ⟨b2, List.mem_cons_of_mem b hb2, h⟩

/-- Every item of the outer iteration loop comes from the inner loop of one of
the suites. -/
theorem mem_iter_go_suites (sn sf : Bool) (fmt : String → String) (ns : Nat)
    (l : List Suite) (i : Nat) (d : DataItem)
    (hd : d ∈ iter_go_suites sn sf fmt ns i l) :
    ∃ su ls, su ∈ l ∧
      d ∈ iter_go_bench sn sf (fmt su.filename) ls su su.benchmarks.length 0
        su.benchmarks := by
  induction l generalizing i with
  | nil => simp [iter_go_suites] at hd
  | cons su t ih =>
    simp only [iter_go_suites] at hd
    rcases List.mem_append.mp hd with h | h
    · exact ⟨su, _, List.mem_cons_self su t, h⟩
    · obtain ⟨su2, ls, hsu, h⟩ := ih (i + 1) h
      exact ⟨su2, ls, List.mem_cons_of_mem su hsu, h⟩

/-- Every yielded item of the cross-suite iterator names a benchmark of a
loaded suite, carries that suite's label, and its title follows the iterator's
title formula. -/
theorem mem_benchmarks_iter (suites : List Suite) (d : DataItem)
    (hd : d ∈ benchmarks_iter suites) :
    ∃ su b, su ∈ suites ∧ b ∈ su.benchmarks ∧ d.name = b.get_name ∧
      d.filename = format_filename_func suites su.filename ∧
      d.title = data_item_title (decide (1 < benchmarks_len suites))
        (decide (1 < suites.length)) d.filename b.get_name := by
  obtain ⟨su, ls, hsu, h⟩ := mem_iter_go_suites _ _ _ _ _ _ d hd
  obtain ⟨b, hb, h1, h2, h3⟩ := mem_iter_go_bench _ _ _ _ _ _ _ _ d h
  refine ⟨su, b, hsu, hb, h1, h2, ?_⟩
  rw [h2]
  exact h3

/-- One suite's benchmark count bounds the collection's total count. -/
theorem le_benchmarks_len (suites : List Suite) (su : Suite) (hsu : su ∈ suites) :
    su.benchmarks.length ≤ benchmarks_len suites := by
  induction suites with
  | nil => simp at hsu
  | cons s t ih =>
    rcases List.mem_cons.mp hsu with rfl | h
    · simp only [benchmarks_len, List.map_cons, List.sum_cons]
      omega
    · have hle := ih h
      simp only [benchmarks_len, List.map_cons, List.sum_cons]
      simp only [benchmarks_len] at hle
      omega

/-- C5 amended: a yielded item's title is absent exactly when the collection
holds a single benchmark in total, or (with the spec-modelled optional names)
when the item's benchmark is anonymous and a single suite is loaded; a named
item of a larger collection is titled by its name, prefixed by its suite label
and a colon exactly when more than one suite is loaded. -/
theorem spec_c5_amended (suites : List Suite) (d : DataItem)
    (hd : d ∈ benchmarks_iter suites) :
    (d.title = none ↔
      (benchmarks_len suites = 1 ∨ (d.name = none ∧ suites.length = 1))) ∧
    (∀ nm, d.name = some nm → 1 < benchmarks_len suites →
      d.title = some (if 1 < suites.length then d.filename ++ ":" ++ nm else nm)) := by
  obtain ⟨su, b, hsu, hb, hname, hfn, htitle⟩ := mem_benchmarks_iter suites d hd
  have hT1 : 1 ≤ benchmarks_len suites := by
    have hb1 : 1 ≤ su.benchmarks.length := by
      cases hbm : su.benchmarks with
      | nil => rw [hbm] at hb; simp at hb
      | cons a t => simp
    exact le_trans hb1 (le_benchmarks_len suites su hsu)
  have hS1 : 1 ≤ suites.length := by
    cases hsm : suites with
    | nil => rw [hsm] at hsu; simp at hsu
    | cons a t => simp
  by_cases hT : 1 < benchmarks_len suites
  · by_cases hS : 1 < suites.length
    · have ht : d.title = some (d.filename ++ ":" ++ percent_s b.get_name) := by
        rw [htitle, decide_eq_true hT, decide_eq_true hS]
        rfl
      constructor
      · rw [ht]
        constructor
        · intro h
          exact Option.noConfusion h
        · rintro (h | ⟨hn, hl⟩)
          · exact absurd h (by omega)
          · exact absurd hl (by omega)
      · intro nm hnm hT2
        rw [ht, if_pos hS]
        rw [hname] at hnm
        rw [hnm]
        rfl
    · have hsf : decide (1 < suites.length) = false := decide_eq_false hS
      have ht : d.title = b.get_name := by
        rw [htitle, decide_eq_true hT, hsf]
        rfl
      constructor
      · rw [ht, hname]
        constructor
        · intro h
          exact Or.inr ⟨h, by omega⟩
        · rintro (h | ⟨hn, _⟩)
          · exact absurd h (by omega)
          · exact hn
      · intro nm hnm hT2
        rw [ht]
        rw [hname] at hnm
        rw [hnm, if_neg hS]
  · have hsn : decide (1 < benchmarks_len suites) = false := decide_eq_false hT
    have ht : d.title = none := by
      rw [htitle, hsn]
      rfl
    have hTe : benchmarks_len suites = 1 := by omega
    constructor
    · rw [ht]
      simp [hTe]
    · intro nm hnm hT2
      exact absurd hT2 hT

/-- C5 counterexample: with an empty suite loaded next to a singleton suite,
the single yielded item has no title although two suites, not one, are
loaded. -/
theorem spec_c5_counterexample :
    (benchmarks_iter c5cexSuites).map DataItem.title = [none] ∧
    c5cexSuites.length ≠ 1 := by
  constructor
  · rfl
  · decide

/-- C5 witness: the first item of a concrete two-suite collection is titled
with its suite label and name. -/
theorem spec_c5_witness :
    c5d.title = some (if 1 < ([suiteA1, suiteB1] : List Suite).length then
      c5d.filename ++ ":" ++ "x" else "x") :=
  (spec_c5_amended [suiteA1, suiteB1] c5d (by decide)).2 "x" rfl (by decide)

/-- The include loop fails at the first suite lacking the name, after narrowing
every suite before it. -/
theorem include_benchmark_go_error (name : String) (l : List Suite)
    (done : List Suite)
    (h : ∃ s, s ∈ l ∧ convert_include_benchmark s name = none) :
    ∃ pre s post, l = pre ++ s :: post ∧
      convert_include_benchmark s name = none ∧
      (∀ t, t ∈ pre → convert_include_benchmark t name ≠ none) ∧
      include_benchmark_go name done l = IncludeResult.fatal s.filename
        (done ++ pre.map (fun t => narrow_suite t name) ++ s :: post) := by
  induction l generalizing done with
  | nil => simp at h
  | cons a t ih =>
    cases hc : convert_include_benchmark a name with
    | none =>
      refine ⟨[], a, t, rfl, hc, by simp, ?_⟩
      simp only [include_benchmark_go, hc]
      simp
    | some a2 =>
      have h2 : ∃ s, s ∈ t ∧ convert_include_benchmark s name = none := by
        obtain ⟨s, hs, hsn⟩ := h
        rcases List.mem_cons.mp hs with rfl | hs2
        · rw [hc] at hsn
          exact Option.noConfusion hsn
        · exact ⟨s, hs2, hsn⟩
      obtain ⟨pre, s, post, hsplit, hfail, hpre, herr⟩ := ih (done ++ [a2]) h2
      refine ⟨a :: pre, s, post, by rw [hsplit]; rfl, hfail, ?_, ?_⟩
      · intro u hu
        rcases List.mem_cons.mp hu with rfl | hu2
        · rw [hc]
          exact fun he => Option.noConfusion he
        · exact hpre u hu2
      · simp only [include_benchmark_go, hc]
        rw [herr]
        have ha2 : a2 = narrow_suite a name := by
          unfold convert_include_benchmark at hc
          by_cases he :
            (a.benchmarks.filter (fun b => decide (b.get_name = some name))).isEmpty
          · rw [if_pos he] at hc
            exact Option.noConfusion hc
          · rw [if_neg he] at hc
            exact (Option.some_inj.mp hc).symm
        rw [ha2]
        simp

/-- C6 amended: whenever some loaded suite lacks the requested name, the
include call fails fatally at the first such suite in load order (the fatal
message names that suite's filename); at that point the suites before it have
already been narrowed (mutated) to the matching benchmark, while the offending
suite and all later suites are untouched. -/
theorem spec_c6_amended (suites : List Suite) (name : String)
    (h : ∃ s, s ∈ suites ∧ convert_include_benchmark s name = none) :
    ∃ pre s post, suites = pre ++ s :: post ∧
      convert_include_benchmark s name = none ∧
      (∀ t, t ∈ pre → convert_include_benchmark t name ≠ none) ∧
      include_benchmark suites name = IncludeResult.fatal s.filename
        (pre.map (fun t => narrow_suite t name) ++ s :: post) := by
  obtain ⟨pre, s, post, h1, h2, h3, h4⟩ := include_benchmark_go_error name suites [] h
  refine ⟨pre, s, post, h1, h2, h3, ?_⟩
  unfold include_benchmark
  rw [h4]
  simp

/-- C6 counterexample: including y when the second suite lacks it fails, but
the first suite has already been narrowed, so the collection at exit differs
from the original one. -/
theorem spec_c6_counterexample :
    include_benchmark [suiteA, suiteB] "y" =
      IncludeResult.fatal "b.json" [c6mutA, suiteB] ∧ c6mutA ≠ suiteA := by
  constructor
  · rfl
  · decide

/-- C6 witness: a concrete failing include call decomposes as the amended claim
states. -/
theorem spec_c6_witness :
    ∃ pre s post, ([suiteA, suiteB] : List Suite) = pre ++ s :: post ∧
      convert_include_benchmark s "y" = none ∧
      (∀ t, t ∈ pre → convert_include_benchmark t "y" ≠ none) ∧
      include_benchmark [suiteA, suiteB] "y" = IncludeResult.fatal s.filename
        (pre.map (fun t => narrow_suite t "y") ++ s :: post) :=
  spec_c6_amended [suiteA, suiteB] "y" ⟨suiteB, by decide, by rfl⟩

/-- C8: the compare command aborts before invoking `compare_suites` when fewer
than two suites are loaded (insufficient suites), and when speed grouping is
requested with a suite count other than two (unsupported configuration, checked
after the suite-count validation); in either situation `compare_suites` is
never invoked. -/
theorem spec_c8_compare_validation (suites : List Suite) (cto gbs : Bool) :
    (suites.length < 2 →
      cmd_compare suites cto gbs = CompareOutcome.fatalInsufficientSuites) ∧
    (2 ≤ suites.length → cto = true → gbs = true → suites.length ≠ 2 →
      cmd_compare suites cto gbs = CompareOutcome.fatalUnsupportedConfig) ∧
    ((suites.length < 2 ∨ (cto = true ∧ gbs = true ∧ suites.length ≠ 2)) →
      ∀ r b2, cmd_compare suites cto gbs ≠ CompareOutcome.invoked r b2) := by
  refine ⟨?_, ?_, ?_⟩
  · intro h
    unfold cmd_compare
    rw [if_pos h]
  · intro h1 h2 h3 h4
    subst h2
    subst h3
    unfold cmd_compare
    have hcond : (if (true : Bool) then (true : Bool) else false) = true ∧
        suites.length ≠ 2 := ⟨rfl, h4⟩
    rw [if_neg (show ¬suites.length < 2 by omega), if_pos hcond]
  · intro h r b2
    by_cases ha : suites.length < 2
    · unfold cmd_compare
      rw [if_pos ha]
      intro he
      exact CompareOutcome.noConfusion he
    · rcases h with h | ⟨hc, hg, hn⟩
      · exact absurd h ha
      · subst hc
        subst hg
        unfold cmd_compare
        have hcond : (if (true : Bool) then (true : Bool) else false) = true ∧
            suites.length ≠ 2 := ⟨rfl, hn⟩
        rw [if_neg ha, if_pos hcond]
        intro he
        exact CompareOutcome.noConfusion he

/-- C8 witness: one suite aborts for lack of suites; three suites with speed
grouping abort as unsupported. -/
theorem spec_c8_witness :
    cmd_compare [suiteA] true true = CompareOutcome.fatalInsufficientSuites ∧
    cmd_compare [suiteA, suiteB, suiteC] true true =
      CompareOutcome.fatalUnsupportedConfig :=
  ⟨(spec_c8_compare_validation [suiteA] true true).1 (by decide),
   (spec_c8_compare_validation [suiteA, suiteB, suiteC] true true).2.1
     (by decide) rfl rfl (by decide)⟩

end Perf
